import Mathlib

/-!
Verification of the coordinate-transform and tensor-invariant core of the
Slicer DataProbe module (`src/DataProbe.py`).

The embedding models 4x4 homogeneous matrices over ℚ (exact arithmetic in
place of IEEE doubles), following the source functions
`DataProbeInfoWidget.getXYToIJKMatrix`, `getXYCorners`, `getIJKCorners`,
`changeSliceOffsetFromClickedPreview.applyAffine`, the local `_roundInt`
helper, and `CalculateTensorScalars.__call__`.
-/

namespace DataProbe

/-- Homogeneous 4x4 transform matrix (VTK `vtkMatrix4x4`), entries over ℚ. -/
abbrev Mat4 : Type := Fin 4 → Fin 4 → ℚ

/-- Homogeneous 4-component vector. -/
abbrev Vec4 : Type := Fin 4 → ℚ

/-- Point with 3 components. -/
abbrev Vec3 : Type := Fin 3 → ℚ

/-- Matrix product, as computed by `vtk.vtkMatrix4x4.Multiply4x4(A, B, out)`:
`out[i][j] = Σ_k A[i][k] * B[k][j]`. -/
def matMul (A B : Mat4) : Mat4 := fun i j =>
  A i 0 * B 0 j + A i 1 * B 1 j + A i 2 * B 2 j + A i 3 * B 3 j

/-- Matrix-vector product, as computed by `vtkMatrix4x4.MultiplyPoint` and by
`np.dot(affine, vec4)`. -/
def mulVec4 (A : Mat4) (v : Vec4) : Vec4 := fun i =>
  A i 0 * v 0 + A i 1 * v 1 + A i 2 * v 2 + A i 3 * v 3

/-- The 4x4 identity matrix (`np.identity(4)` / a fresh `vtkMatrix4x4`). -/
def idMat4 : Mat4 := fun i j => if i = j then 1 else 0

/-- First three components of a homogeneous 4-vector (the `[:3]` slice). -/
def truncate3 (v : Vec4) : Vec3 := fun i => v i.castSucc

/-- Append a homogeneous 1 to a 3-point (`np.hstack((point, 1))`). -/
def homog (p : Vec3) : Vec4 := fun i =>
  if h : (i : ℕ) < 3 then p ⟨i, h⟩ else 1

/-- Embed an XY pixel coordinate as the homogeneous vector `[x, y, 0, 1]`
(the source's `pointHomogeneus = [x, y] + [0, 1]`). -/
def homogXY (x y : ℚ) : Vec4 := fun i =>
  if i = 0 then x else if i = 1 then y else if i = 2 then 0 else 1

/-- Index-skipping helper used to carve a 3x3 minor out of a 4x4 matrix. -/
def skip (r : Fin 4) (i : Fin 3) : Fin 4 :=
  if (i : ℕ) < (r : ℕ) then ⟨i, by omega⟩ else ⟨(i : ℕ) + 1, by omega⟩

/-- The 3x3 minor of `A` obtained by deleting row `r` and column `c`. -/
def minor (A : Mat4) (r c : Fin 4) : Fin 3 → Fin 3 → ℚ := fun i j =>
  A (skip r i) (skip c j)

/-- Determinant of a 3x3 matrix by the rule of Sarrus. -/
def det3 (B : Fin 3 → Fin 3 → ℚ) : ℚ :=
  B 0 0 * (B 1 1 * B 2 2 - B 1 2 * B 2 1)
    - B 0 1 * (B 1 0 * B 2 2 - B 1 2 * B 2 0)
    + B 0 2 * (B 1 0 * B 2 1 - B 1 1 * B 2 0)

/-- Determinant of a 4x4 matrix by cofactor expansion along the first row. -/
def det4 (A : Mat4) : ℚ :=
  A 0 0 * det3 (minor A 0 0)
    - A 0 1 * det3 (minor A 0 1)
    + A 0 2 * det3 (minor A 0 2)
    - A 0 3 * det3 (minor A 0 3)

/-- Cofactor sign `(-1)^(i+j)` as a rational. -/
def cofSign (i j : Fin 4) : ℚ :=
  if ((i : ℕ) + (j : ℕ)) % 2 = 0 then 1 else -1

/-- Classical adjugate inverse of a 4x4 matrix,
`inv[i][j] = (-1)^(i+j) * minor(j, i) / det`, the closed form computed by
`vtkMatrix4x4.Invert` (cofactor inversion). -/
def inv4 (A : Mat4) : Mat4 := fun i j =>
  cofSign i j * det3 (minor A j i) / det4 A

/-- Error taxonomy of the specified core. -/
inductive TransformError : Type
  | singularMatrix
  deriving DecidableEq, Repr

/-- Modelled from the spec: the matrix inversion performed by the host call
`vtkMatrix4x4.Invert` (not part of this repository's sources) together with
the specified failure mode — `SingularMatrixError` when the determinant is
zero within a small epsilon (1e-10); otherwise the cofactor inverse. -/
def invertOrFail (A : Mat4) : Except TransformError Mat4 :=
  if |det4 A| < (1 : ℚ) / 10 ^ 10 then .error .singularMatrix
  else .ok (inv4 A)

/-- `DataProbeInfoWidget.getXYToIJKMatrix` (spec operation `computeXYToIJK`).
Inputs are the matrices the source pulls from the slice and volume nodes:
`XYToRAS = sliceNode.GetXYToRAS()`, `RASToIJK` from
`volumeNode.GetRASToIJKMatrix`, `IJKToRAS` from
`volumeNode.GetIJKToRASMatrix`, and, when the volume has a parent transform
node, `parentTransform = volumeTransformNode.GetMatrixTransformToParent()`.
With a parent transform present the source overwrites `RASToIJK` with
`transformMatrix * IJKToRAS` and inverts it in place; then it returns
`RASToIJK * XYToRAS`. -/
def getXYToIJKMatrix (xyToRAS rasToIJK ijkToRAS : Mat4)
    (parentTransform : Option Mat4) : Except TransformError Mat4 :=
  match parentTransform with
  | none => .ok (matMul rasToIJK xyToRAS)
  | some t =>
    (invertOrFail (matMul t ijkToRAS)).map fun r => matMul r xyToRAS

/-- `applyAffine` from `changeSliceOffsetFromClickedPreview`:
`np.dot(affine, np.hstack((point, 1)))[:3]`. -/
def applyAffine (affine : Mat4) (point : Vec3) : Vec3 :=
  truncate3 (mulVec4 affine (homog point))

/-- `DataProbeInfoWidget.getXYCorners`: the four pixel-space corners of a
slice view of dimensions `(dx, dy)`, in the fixed order bottom-left,
top-left, top-right, bottom-right. -/
def getXYCorners (dx dy : ℤ) : List (ℤ × ℤ) :=
  [(0, 0), (0, dy - 1), (dx - 1, dy - 1), (dx - 1, 0)]

/-- `DataProbeInfoWidget.getIJKCorners`, parameterised by the XY→IJK matrix
that the source obtains from `getXYToIJKMatrix`: each XY corner is extended
with `[0, 1]`, pushed through `xyToIJK.MultiplyPoint`, and sliced to its
first three components. -/
def getIJKCorners (xyToIJK : Mat4) (dx dy : ℤ) : List Vec3 :=
  (getXYCorners dx dy).map fun xy =>
    truncate3 (mulVec4 xyToIJK (homogXY (xy.1 : ℚ) (xy.2 : ℚ)))

/-- An idealized CPython (2.x) float, as handled by `_roundInt`: a finite
value (modelled exactly by a rational) or one of the non-finite IEEE
specials. -/
inductive PyFloat : Type
  | fin (q : ℚ)
  | nan
  | pinf
  | ninf
  deriving DecidableEq, Repr

/-- The Python exceptions relevant to the probed code paths. -/
inductive PyExc : Type
  | valueError
  | overflowError
  deriving DecidableEq, Repr

/-- Round half away from zero, the arithmetic performed by Python 2's
builtin `round` on a finite float. -/
def roundHalfAway (q : ℚ) : ℤ :=
  if 0 ≤ q then ⌊q + 1 / 2⌋ else ⌈q - 1 / 2⌉

/-- Python 2 builtin `round`: rounds a finite float half away from zero and
returns it as a float; `round(nan) = nan`, `round(±inf) = ±inf`. -/
def pyRound : PyFloat → PyFloat
  | .fin q => .fin ((roundHalfAway q : ℤ) : ℚ)
  | .nan => .nan
  | .pinf => .pinf
  | .ninf => .ninf

/-- Python builtin `int` on a float: truncates a finite value toward zero,
raises `ValueError` on NaN and `OverflowError` on the infinities. -/
def pyInt : PyFloat → Except PyExc ℤ
  | .fin q => .ok (if 0 ≤ q then ⌊q⌋ else ⌈q⌉)
  | .nan => .error .valueError
  | .pinf => .error .overflowError
  | .ninf => .error .overflowError

/-- The local helper `_roundInt` (defined identically inside
`DataProbeInfoWidget.processEvent` and `_createMagnifiedPixmap`):
`try: return int(round(value)) except ValueError: return 0`. Only
`ValueError` is caught; any other exception propagates. -/
def roundInt (value : PyFloat) : Except PyExc ℤ :=
  match pyInt (pyRound value) with
  | .ok n => .ok n
  | .error .valueError => .ok 0
  | .error e => .error e

/-- The host-side tensor scalar operations selectable on
`teem.vtkDiffusionTensorMathematics` (`SetOperation*`). -/
inductive TensorOp : Type
  | fractionalAnisotropy
  | trace
  | linearMeasure
  | planarMeasure
  | sphericalMeasure
  deriving DecidableEq, Repr

/-- The mutable scratch pipeline owned by a `CalculateTensorScalars`
instance: the 9-component `tensor_data` array attached to
`single_pixel_image`, and the operation currently set on `dti_math`. -/
structure CalcState : Type where
  tensorData : List ℚ
  operation : TensorOp
  deriving DecidableEq, Repr

/-- `CalculateTensorScalars.__call__`, written in state-passing style. The
numeric work of `dti_math.Update()` happens in the host library
`vtkDiffusionTensorMathematics`, not in this repository, so it is passed in
as an abstract computation `compute` mapping the selected operation and the
stored tensor to the optional scalar the source reads back (the source
returns `None` when the pipeline output has no scalar components).
The source first validates `len(tensor) != 9` and raises
`ValueError("Invalid tensor a 9-array is required")`, then writes the
tensor into `tensor_data` (`SetTuple9`), then sets the operation —
`SetOperation(operation)` when one is given, else
`SetOperationToFractionalAnisotropy()` — and finally updates and reads the
output. -/
def calcCall (compute : TensorOp → List ℚ → Option ℚ) (s : CalcState)
    (tensor : List ℚ) (operation : Option TensorOp) :
    CalcState × Except PyExc (Option ℚ) :=
  if tensor.length ≠ 9 then (s, .error .valueError)
  else
    let s1 : CalcState := { s with tensorData := tensor }
    let s2 : CalcState :=
      { s1 with
        operation :=
          match operation with
          | some op => op
          | none => .fractionalAnisotropy }
    (s2, .ok (compute s2.operation s2.tensorData))

/-- The spec's end-to-end example `xyToRAS`: a 2x scale in x, identity in y,
z fixed at 0. -/
def xyToRAS2x : Mat4 :=
  ![![2, 0, 0, 0], ![0, 1, 0, 0], ![0, 0, 0, 0], ![0, 0, 0, 1]]

/-- An invertible variant of the example: 2x scale in x, identity in y and
z. -/
def xyScale2 : Mat4 :=
  ![![2, 0, 0, 0], ![0, 1, 0, 0], ![0, 0, 1, 0], ![0, 0, 0, 1]]

/-- Inverse of `xyScale2`: half scale in x. -/
def xyScaleHalf : Mat4 :=
  ![![1 / 2, 0, 0, 0], ![0, 1, 0, 0], ![0, 0, 1, 0], ![0, 0, 0, 1]]

/-- An invertible 4x4 matrix whose last row is not `[0, 0, 0, 1]` (the spec
allows caller-supplied matrices with arbitrary last rows). -/
def xyBad : Mat4 :=
  ![![1, 0, 0, 2], ![0, 1, 0, 0], ![0, 0, 1, 0], ![1, 0, 0, 1]]

/-- The exact inverse of `xyBad`. -/
def nBad : Mat4 :=
  ![![-1, 0, 0, 2], ![0, 1, 0, 0], ![0, 0, 1, 0], ![1, 0, 0, -1]]

/-- The all-zero 4x4 matrix. -/
def zeroMat4 : Mat4 := fun _ _ => 0

/-- Matrix-vector multiplication turns the matrix product into composition
of applications (right-to-left). -/
theorem mulVec4_matMul (A B : Mat4) (v : Vec4) :
    mulVec4 (matMul A B) v = mulVec4 A (mulVec4 B v) := by
  funext i
  simp only [mulVec4, matMul]
  ring

/-- The identity matrix acts as the identity on 4-vectors. -/
theorem mulVec4_idMat4 (v : Vec4) : mulVec4 idMat4 v = v := by
  funext i
  fin_cases i <;> simp +decide [mulVec4, idMat4]

/-- Dropping the homogeneous component right after appending it is the
identity. -/
theorem truncate3_homog (p : Vec3) : truncate3 (homog p) = p := by
  funext i
  fin_cases i <;> simp +decide [truncate3, homog]

/-- C1: with no parent transform, `getXYToIJKMatrix` (`computeXYToIJK`)
returns exactly the matrix product `rasToIJK * xyToRAS`, the transform that
maps a homogeneous point first XY→RAS and then RAS→IJK. -/
theorem computeXYToIJK_noParent (xyToRAS rasToIJK ijkToRAS : Mat4) :
    getXYToIJKMatrix xyToRAS rasToIJK ijkToRAS none
      = .ok (matMul rasToIJK xyToRAS)
    ∧ ∀ v : Vec4,
        mulVec4 (matMul rasToIJK xyToRAS) v
          = mulVec4 rasToIJK (mulVec4 xyToRAS v) :=
  ⟨rfl, fun v => mulVec4_matMul rasToIJK xyToRAS v⟩

/-- C2: with a parent transform `t`, `getXYToIJKMatrix` uses
`invert(t * ijkToRAS)` as the effective RAS→IJK — discarding the volume's
own `rasToIJK`, on which the result does not depend — and returns
`invert(t * ijkToRAS) * xyToRAS`. -/
theorem computeXYToIJK_parent (xyToRAS rasToIJK ijkToRAS t : Mat4)
    (h : ¬ |det4 (matMul t ijkToRAS)| < 1 / 10 ^ 10) :
    getXYToIJKMatrix xyToRAS rasToIJK ijkToRAS (some t)
      = .ok (matMul (inv4 (matMul t ijkToRAS)) xyToRAS)
    ∧ ∀ ras' : Mat4,
        getXYToIJKMatrix xyToRAS rasToIJK ijkToRAS (some t)
          = getXYToIJKMatrix xyToRAS ras' ijkToRAS (some t) := by
  constructor
  · simp only [getXYToIJKMatrix]
    rw [invertOrFail, if_neg h]
    rfl
  · intro ras'
    simp only [getXYToIJKMatrix]

/-- Witness for C2 at a concrete input: parent transform and `ijkToRAS`
both the identity, whose product has determinant 1. -/
theorem computeXYToIJK_parent_witness :
    ¬ |det4 (matMul idMat4 idMat4)| < 1 / 10 ^ 10
    ∧ getXYToIJKMatrix xyToRAS2x zeroMat4 idMat4 (some idMat4)
        = .ok (matMul (inv4 (matMul idMat4 idMat4)) xyToRAS2x) := by
  have h : ¬ |det4 (matMul idMat4 idMat4)| < (1 : ℚ) / 10 ^ 10 := by
    norm_num +decide [det4, det3, minor, skip, matMul, idMat4]
  exact ⟨h, (computeXYToIJK_parent xyToRAS2x zeroMat4 idMat4 idMat4 h).1⟩

/-- C3: when a parent transform is supplied and the matrix to be inverted,
`t * ijkToRAS`, has determinant zero within the epsilon 1e-10,
`getXYToIJKMatrix` fails with `SingularMatrixError` instead of returning a
matrix. -/
theorem computeXYToIJK_singular (xyToRAS rasToIJK ijkToRAS t : Mat4)
    (h : |det4 (matMul t ijkToRAS)| < 1 / 10 ^ 10) :
    getXYToIJKMatrix xyToRAS rasToIJK ijkToRAS (some t)
      = .error .singularMatrix := by
  simp only [getXYToIJKMatrix]
  rw [invertOrFail, if_pos h]
  rfl

/-- Witness for C3 at a concrete input: the all-zero parent-composed
matrix. -/
theorem computeXYToIJK_singular_witness :
    |det4 (matMul zeroMat4 idMat4)| < 1 / 10 ^ 10
    ∧ getXYToIJKMatrix xyToRAS2x idMat4 idMat4 (some zeroMat4)
        = .error .singularMatrix := by
  have h : |det4 (matMul zeroMat4 idMat4)| < (1 : ℚ) / 10 ^ 10 := by
    norm_num +decide [det4, det3, minor, skip, matMul, zeroMat4, idMat4]
  exact ⟨h, computeXYToIJK_singular xyToRAS2x idMat4 idMat4 zeroMat4 h⟩

/-- C4: `CalculateTensorScalars.__call__` (`computeInvariant`) raises the
invalid-tensor `ValueError` exactly when the tensor input does not have 9
components, for any host computation, scratch state and operation
selector. -/
theorem computeInvariant_invalidTensor_iff
    (compute : TensorOp → List ℚ → Option ℚ) (s : CalcState)
    (tensor : List ℚ) (operation : Option TensorOp) :
    (calcCall compute s tensor operation).2 = .error .valueError
      ↔ tensor.length ≠ 9 := by
  by_cases h : tensor.length = 9 <;> simp [calcCall, h]

/-- C8: when the invariant selector is absent, `__call__` behaves exactly
as an explicit call with the FractionalAnisotropy operation, for any host
computation and scratch state. -/
theorem computeInvariant_default_FA
    (compute : TensorOp → List ℚ → Option ℚ) (s : CalcState)
    (tensor : List ℚ) (h : tensor.length = 9) :
    calcCall compute s tensor none
      = calcCall compute s tensor (some .fractionalAnisotropy) := by
  simp [calcCall, h]

/-- Witness for C8 at a concrete input: the zero 9-tensor. -/
theorem computeInvariant_default_FA_witness :
    ([(0 : ℚ), 0, 0, 0, 0, 0, 0, 0, 0]).length = 9
    ∧ calcCall (fun _ _ => none) ⟨[], .trace⟩
        [(0 : ℚ), 0, 0, 0, 0, 0, 0, 0, 0] none
      = calcCall (fun _ _ => none) ⟨[], .trace⟩
        [(0 : ℚ), 0, 0, 0, 0, 0, 0, 0, 0] (some .fractionalAnisotropy) :=
  ⟨rfl, computeInvariant_default_FA (fun _ _ => none) ⟨[], .trace⟩
    [(0 : ℚ), 0, 0, 0, 0, 0, 0, 0, 0] rfl⟩

/-- C10: on a tensor whose length is not 9, `__call__` raises before any
mutation of the scratch pipeline, leaving the calculator state identical
to its state before the call. -/
theorem computeInvariant_atomic
    (compute : TensorOp → List ℚ → Option ℚ) (s : CalcState)
    (tensor : List ℚ) (operation : Option TensorOp)
    (h : tensor.length ≠ 9) :
    (calcCall compute s tensor operation).1 = s
    ∧ (calcCall compute s tensor operation).2 = .error .valueError := by
  simp [calcCall, h]

/-- Witness for C10 at a concrete input: an 8-element tensor. -/
theorem computeInvariant_atomic_witness :
    ([(0 : ℚ), 0, 0, 0, 0, 0, 0, 0]).length ≠ 9
    ∧ (calcCall (fun _ _ => none) ⟨[], .trace⟩
        [(0 : ℚ), 0, 0, 0, 0, 0, 0, 0] none).1 = ⟨[], .trace⟩ := by
  have h : ([(0 : ℚ), 0, 0, 0, 0, 0, 0, 0]).length ≠ 9 := by
    simp
  exact ⟨h, (computeInvariant_atomic (fun _ _ => none) ⟨[], .trace⟩
    [(0 : ℚ), 0, 0, 0, 0, 0, 0, 0] none h).1⟩

/-- C5: for positive dimensions `(dx, dy)`, the corner computation
(`getXYCorners` composed with `getIJKCorners`) returns exactly 4 points:
the projections through the transform, with z = 0, of the pixel
coordinates (0,0), (0,dy-1), (dx-1,dy-1), (dx-1,0), in this fixed
bottom-left, top-left, top-right, bottom-right order. -/
theorem cornersInFrame_spec (M : Mat4) (dx dy : ℤ)
    (hdx : 0 < dx) (hdy : 0 < dy) :
    (getIJKCorners M dx dy).length = 4
    ∧ getIJKCorners M dx dy =
        [truncate3 (mulVec4 M (homogXY 0 0)),
         truncate3 (mulVec4 M (homogXY 0 ((dy : ℚ) - 1))),
         truncate3 (mulVec4 M (homogXY ((dx : ℚ) - 1) ((dy : ℚ) - 1))),
         truncate3 (mulVec4 M (homogXY ((dx : ℚ) - 1) 0))] := by
  refine ⟨rfl, ?_⟩
  simp only [getIJKCorners, getXYCorners, List.map]
  push_cast
  rfl

/-- Witness for C5 at a concrete input: the identity transform on a 2x2
extent. -/
theorem cornersInFrame_spec_witness :
    (0 : ℤ) < 2 ∧ (0 : ℤ) < 2
    ∧ (getIJKCorners idMat4 2 2).length = 4
    ∧ getIJKCorners idMat4 2 2 =
        [truncate3 (mulVec4 idMat4 (homogXY 0 0)),
         truncate3 (mulVec4 idMat4 (homogXY 0 (((2 : ℤ) : ℚ) - 1))),
         truncate3 (mulVec4 idMat4
           (homogXY (((2 : ℤ) : ℚ) - 1) (((2 : ℤ) : ℚ) - 1))),
         truncate3 (mulVec4 idMat4 (homogXY (((2 : ℤ) : ℚ) - 1) 0))] := by
  have h : (0 : ℤ) < 2 := by decide
  exact ⟨h, h, (cornersInFrame_spec idMat4 2 2 h h).1,
    (cornersInFrame_spec idMat4 2 2 h h).2⟩

/-- C6 counterexample: on `+Inf`, `_roundInt` does not return 0 — it
propagates an `OverflowError` (Python's `int` raises `OverflowError` on an
infinite float, and only `ValueError` is caught). -/
theorem roundInt_pinf_counterexample :
    roundInt PyFloat.pinf = .error PyExc.overflowError
    ∧ roundInt PyFloat.pinf ≠ .ok 0 :=
  ⟨rfl, fun h => Except.noConfusion h⟩

/-- C6 amended: `_roundInt` rounds a finite value half away from zero,
returns 0 for NaN (whose `ValueError` is caught), and raises
`OverflowError` — it is not total — on the two infinities. -/
theorem roundInt_amended (v : PyFloat) :
    roundInt v =
      match v with
      | .fin q => .ok (roundHalfAway q)
      | .nan => .ok 0
      | .pinf => .error .overflowError
      | .ninf => .error .overflowError := by
  cases v with
  | fin q =>
    simp only [roundInt, pyRound, pyInt]
    split <;> simp
  | nan => rfl
  | pinf => rfl
  | ninf => rfl

/-- C7: `applyAffine` appends a homogeneous 1, left-multiplies by the
matrix, and keeps the first three components; it is a total pure function.
Concretely, with `xyToRAS` the 2x-scale in x (z fixed at 0) and `rasToIJK`
the identity, the XY point (10,20,0) maps to RAS (20,20,0), which maps to
IJK (20,20,0), and the transform composed by `getXYToIJKMatrix` sends it
to (20,20,0) directly. -/
theorem applyAffine_spec :
    (∀ (M : Mat4) (p : Vec3),
        applyAffine M p = truncate3 (mulVec4 M (homog p)))
    ∧ applyAffine xyToRAS2x ![10, 20, 0] = ![20, 20, 0]
    ∧ applyAffine idMat4 ![20, 20, 0] = ![20, 20, 0]
    ∧ getXYToIJKMatrix xyToRAS2x idMat4 idMat4 none
        = .ok (matMul idMat4 xyToRAS2x)
    ∧ applyAffine (matMul idMat4 xyToRAS2x) ![10, 20, 0] = ![20, 20, 0] := by
  refine ⟨fun M p => rfl, ?_, ?_, rfl, ?_⟩ <;>
    · funext i
      fin_cases i <;>
        norm_num +decide [applyAffine, truncate3, mulVec4, homog, matMul,
          idMat4, xyToRAS2x, Matrix.vecHead, Matrix.vecTail]

/-- Re-appending the homogeneous 1 after truncation recovers the vector
whenever its homogeneous component is 1. -/
theorem homog_truncate3 (w : Vec4) (hw : w 3 = 1) : homog (truncate3 w) = w := by
  funext i
  rcases i with ⟨iv, hlt⟩
  simp only [homog, truncate3]
  split
  · next hv =>
    congr 1
  · next hv =>
    have h3 : iv = 3 := by omega
    subst h3
    exact hw.symm

set_option maxHeartbeats 2000000 in
/-- C9 counterexample: the round-trip law fails as stated. With
`xyToRAS = xyBad` (an invertible matrix whose last row is not [0,0,0,1],
which the spec's data model allows for caller-supplied matrices) and
`rasToIJK` the identity, `getXYToIJKMatrix` composes an invertible
transform — `nBad` is its two-sided inverse, equal to the computed
cofactor inverse — yet applying the transform and then its inverse to the
point (1,0,0) does not return the point, even over exact arithmetic. -/
theorem computeXYToIJK_roundTrip_counterexample :
    getXYToIJKMatrix xyBad idMat4 idMat4 none = .ok (matMul idMat4 xyBad)
    ∧ matMul nBad (matMul idMat4 xyBad) = idMat4
    ∧ matMul (matMul idMat4 xyBad) nBad = idMat4
    ∧ inv4 (matMul idMat4 xyBad) = nBad
    ∧ applyAffine nBad (applyAffine (matMul idMat4 xyBad) ![1, 0, 0])
        ≠ ![1, 0, 0] := by
  have hM : matMul idMat4 xyBad = xyBad := by
    funext i j
    fin_cases i <;> fin_cases j <;>
      norm_num +decide [matMul, idMat4, xyBad, Matrix.vecHead, Matrix.vecTail]
  refine ⟨rfl, ?_, ?_, ?_, ?_⟩
  · funext i j
    fin_cases i <;> fin_cases j <;>
      norm_num +decide [matMul, idMat4, xyBad, nBad,
        Matrix.vecHead, Matrix.vecTail]
  · funext i j
    fin_cases i <;> fin_cases j <;>
      norm_num +decide [matMul, idMat4, xyBad, nBad,
        Matrix.vecHead, Matrix.vecTail]
  · rw [hM]
    funext i j
    fin_cases i <;> fin_cases j <;>
      norm_num +decide [inv4, det4, det3, minor, skip, cofSign, xyBad, nBad,
        Matrix.vecHead, Matrix.vecTail]
  · rw [hM]
    intro h
    have h0 := congrFun h 0
    norm_num +decide [applyAffine, truncate3, mulVec4, homog, xyBad, nBad,
      Matrix.vecHead, Matrix.vecTail] at h0

/-- C9 amended: the round-trip law holds for every transform composed by
`getXYToIJKMatrix` whose last row is [0,0,0,1] (the invariant the spec
guarantees for constructed transforms): applying the transform and then
any inverse of it returns the original point exactly. -/
theorem computeXYToIJK_roundTrip (xyToRAS rasToIJK ijkToRAS : Mat4)
    (par : Option Mat4) (M N : Mat4) (p : Vec3)
    (hM : getXYToIJKMatrix xyToRAS rasToIJK ijkToRAS par = .ok M)
    (h0 : M 3 0 = 0) (h1 : M 3 1 = 0) (h2 : M 3 2 = 0) (h3 : M 3 3 = 1)
    (hN : matMul N M = idMat4) :
    applyAffine N (applyAffine M p) = p := by
  have hw : mulVec4 M (homog p) 3 = 1 := by
    simp +decide [mulVec4, homog, h0, h1, h2, h3]
  calc applyAffine N (applyAffine M p)
      = truncate3 (mulVec4 N (homog (truncate3 (mulVec4 M (homog p))))) := rfl
    _ = truncate3 (mulVec4 N (mulVec4 M (homog p))) := by
        rw [homog_truncate3 _ hw]
    _ = truncate3 (mulVec4 (matMul N M) (homog p)) := by rw [mulVec4_matMul]
    _ = truncate3 (mulVec4 idMat4 (homog p)) := by rw [hN]
    _ = truncate3 (homog p) := by rw [mulVec4_idMat4]
    _ = p := truncate3_homog p

/-- Witness for C9 at a concrete input: the invertible 2x-scale in x, its
half-scale inverse, and the point (10,20,0). -/
theorem computeXYToIJK_roundTrip_witness :
    getXYToIJKMatrix xyScale2 idMat4 idMat4 none = .ok (matMul idMat4 xyScale2)
    ∧ matMul idMat4 xyScale2 3 0 = 0
    ∧ matMul idMat4 xyScale2 3 1 = 0
    ∧ matMul idMat4 xyScale2 3 2 = 0
    ∧ matMul idMat4 xyScale2 3 3 = 1
    ∧ matMul xyScaleHalf (matMul idMat4 xyScale2) = idMat4
    ∧ applyAffine xyScaleHalf
        (applyAffine (matMul idMat4 xyScale2) ![10, 20, 0]) = ![10, 20, 0] := by
  have hM : getXYToIJKMatrix xyScale2 idMat4 idMat4 none
      = .ok (matMul idMat4 xyScale2) := rfl
  have h0 : matMul idMat4 xyScale2 3 0 = 0 := by
    norm_num +decide [matMul, idMat4, xyScale2, Matrix.vecHead, Matrix.vecTail]
  have h1 : matMul idMat4 xyScale2 3 1 = 0 := by
    norm_num +decide [matMul, idMat4, xyScale2, Matrix.vecHead, Matrix.vecTail]
  have h2 : matMul idMat4 xyScale2 3 2 = 0 := by
    norm_num +decide [matMul, idMat4, xyScale2, Matrix.vecHead, Matrix.vecTail]
  have h3 : matMul idMat4 xyScale2 3 3 = 1 := by
    norm_num +decide [matMul, idMat4, xyScale2, Matrix.vecHead, Matrix.vecTail]
  have hN : matMul xyScaleHalf (matMul idMat4 xyScale2) = idMat4 := by
    funext i j
    fin_cases i <;> fin_cases j <;>
      norm_num +decide [matMul, idMat4, xyScale2, xyScaleHalf,
        Matrix.vecHead, Matrix.vecTail]
  exact ⟨hM, h0, h1, h2, h3, hN,
    computeXYToIJK_roundTrip xyScale2 idMat4 idMat4 none
      (matMul idMat4 xyScale2) xyScaleHalf ![10, 20, 0]
      hM h0 h1 h2 h3 hN⟩

end DataProbe
